import Mathlib

/-!
Verification of the fluent-reader-server core data model and text pipeline.

The development shallowly embeds the two source files:
  * `src/lang.rs` — language-aware segmentation (`get_words`) and the
    unique-word index (`get_unique_words`);
  * `src/models.rs` — the data model (User, ClaimsUser, Article,
    SimpleArticle, request/response shapes and their constructors).

Rust machine integers (`i32`, `i64`) are modelled as `Int`, `SystemTime`
as `Nat`, `serde_json::Value` as the inductive `Json` below, and the
`serde_json` object map (a `BTreeMap<String, Value>`) as an association
list sorted strictly by key — the canonical representation that makes two
maps equal exactly when they hold the same key/value pairs, as `BTreeMap`
equality does.
-/

/-- Model of `serde_json::Value`: null, booleans, numbers, strings,
arrays and objects. -/
inductive Json where
  | null : Json
  | bool (b : Bool) : Json
  | num (n : Int) : Json
  | str (s : String) : Json
  | arr (xs : List Json) : Json
  | obj (fields : List (String × Json)) : Json

/-- Model of Rust's `str::to_lowercase` (locale-independent lowercasing),
applied character by character. -/
def toLowercase (s : String) : String := String.mk (s.data.map Char.toLower)

/-- Lexicographic comparison of character lists, mirroring the `Ord`
instance `BTreeMap<String, _>` sorts its keys by. -/
def charListLt : List Char → List Char → Bool
  | [], [] => false
  | [], _ :: _ => true
  | _ :: _, [] => false
  | a :: as, b :: bs =>
    if a < b then true
    else if b < a then false
    else charListLt as bs

/-- Lexicographic string comparison used to keep the object model
sorted by key. -/
def strLt (a b : String) : Bool := charListLt a.data b.data

/-- Insertion into the sorted-association-list model of a
`serde_json::Map<String, Value>` (a `BTreeMap`): the entry is placed at
its ordered position, replacing an existing entry with the same key. -/
def mapInsert (k : String) (v : Json) : List (String × Json) → List (String × Json)
  | [] => [(k, v)]
  | (k₀, v₀) :: rest =>
    if strLt k k₀ then (k, v) :: (k₀, v₀) :: rest
    else if k = k₀ then (k, v) :: rest
    else (k₀, v₀) :: mapInsert k v rest

/-- Key lookup in the association-list model of a `serde_json` object. -/
def mapLookup (k : String) : List (String × Json) → Option Json
  | [] => none
  | (k₀, v₀) :: rest => if k = k₀ then some v₀ else mapLookup k rest

theorem lt_conn_char (a b : Char) (h1 : ¬a < b) (h2 : ¬b < a) : a = b := by
  rcases lt_trichotomy a b with h | h | h
  exacts [absurd h h1, h, absurd h h2]

theorem charListLt_irrefl : ∀ as : List Char, charListLt as as = false := by
  intro as
  induction as with
  | nil => rfl
  | cons a as ih => simp [charListLt, lt_irrefl a, ih]

theorem charListLt_asymm : ∀ as bs : List Char,
    charListLt as bs = true → charListLt bs as = false := by
  intro as
  induction as with
  | nil =>
    intro bs h
    cases bs with
    | nil => cases h
    | cons b bs => rfl
  | cons a as ih =>
    intro bs h
    cases bs with
    | nil => cases h
    | cons b bs =>
      rw [charListLt] at h ⊢
      by_cases h1 : a < b
      · rw [if_neg (lt_asymm h1), if_pos h1]
      · rw [if_neg h1] at h
        by_cases h2 : b < a
        · rw [if_pos h2] at h; cases h
        · rw [if_neg h2] at h
          rw [if_neg h2, if_neg h1]
          exact ih bs h

theorem charListLt_conn : ∀ as bs : List Char,
    charListLt as bs = false → charListLt bs as = false → as = bs := by
  intro as
  induction as with
  | nil =>
    intro bs h1 _
    cases bs with
    | nil => rfl
    | cons b bs => cases h1
  | cons a as ih =>
    intro bs h1 h2
    cases bs with
    | nil => cases h2
    | cons b bs =>
      rw [charListLt] at h1 h2
      by_cases hab : a < b
      · rw [if_pos hab] at h1; cases h1
      · by_cases hba : b < a
        · rw [if_pos hba] at h2; cases h2
        · have he : a = b := lt_conn_char a b hab hba
          subst he
          rw [if_neg hab, if_neg hab] at h1
          rw [if_neg hab, if_neg hab] at h2
          rw [ih bs h1 h2]

theorem charListLt_trans : ∀ as bs cs : List Char,
    charListLt as bs = true → charListLt bs cs = true → charListLt as cs = true := by
  intro as
  induction as with
  | nil =>
    intro bs cs h1 h2
    cases bs with
    | nil => cases h1
    | cons b bs =>
      cases cs with
      | nil => cases h2
      | cons c cs => rfl
  | cons a as ih =>
    intro bs cs h1 h2
    cases bs with
    | nil => cases h1
    | cons b bs =>
      cases cs with
      | nil => cases h2
      | cons c cs =>
        rw [charListLt] at h1 h2 ⊢
        by_cases hab : a < b
        · rw [if_pos hab] at h1
          by_cases hbc : b < c
          · rw [if_pos (lt_trans hab hbc)]
          · by_cases hcb : c < b
            · rw [if_neg hbc, if_pos hcb] at h2; cases h2
            · have he : b = c := lt_conn_char b c hbc hcb
              subst he
              rw [if_pos hab]
        · rw [if_neg hab] at h1
          by_cases hba : b < a
          · rw [if_pos hba] at h1; cases h1
          · rw [if_neg hba] at h1
            have he : a = b := lt_conn_char a b hab hba
            subst he
            by_cases hac : a < c
            · rw [if_pos hac]
            · by_cases hca : c < a
              · rw [if_neg hac, if_pos hca] at h2; cases h2
              · rw [if_neg hac, if_neg hca] at h2
                rw [if_neg hac, if_neg hca]
                exact ih bs cs h1 h2

theorem strLt_irrefl (a : String) : strLt a a = false := charListLt_irrefl a.data

theorem strLt_asymm {a b : String} (h : strLt a b = true) : strLt b a = false :=
  charListLt_asymm _ _ h

theorem strLt_trans {a b c : String} (h1 : strLt a b = true) (h2 : strLt b c = true) :
    strLt a c = true :=
  charListLt_trans _ _ _ h1 h2

theorem strLt_conn {a b : String} (h1 : strLt a b = false) (h2 : strLt b a = false) :
    a = b := by
  have hd := charListLt_conn a.data b.data h1 h2
  cases a with
  | mk la =>
    cases b with
    | mk lb => exact congrArg String.mk hd

theorem strLt_of_ne {a b : String} (h : strLt a b = false) (hne : a ≠ b) :
    strLt b a = true := by
  cases hba : strLt b a with
  | false => exact absurd (strLt_conn h hba) hne
  | true => rfl

theorem ne_of_strLt {a b : String} (h : strLt a b = true) : a ≠ b := by
  intro he
  rw [he, strLt_irrefl] at h
  cases h

/-- The entries of the object built by `get_unique_words` in
`src/lang.rs`: starting from the empty object, every token inserts its
lowercased form mapped to `true`. -/
def uniqueWordsMap (words : List String) : List (String × Json) :=
  words.foldl (fun m w => mapInsert (toLowercase w) (Json.bool true) m) []

/-- Embedding of `get_unique_words` from `src/lang.rs`: a JSON object
mapping the lowercase form of every token to `true`. -/
def get_unique_words (words : List String) : Json :=
  Json.obj (uniqueWordsMap words)

/-- Modelled from the spec: `unicode_segmentation::split_word_bounds`
(external library code) joins adjacent characters into one token exactly
when both are alphanumeric or both are whitespace; every other character
forms its own token. Contiguous letter/number clusters and whitespace
runs are tokens, punctuation marks are emitted as single-character
tokens. -/
def joinable (c d : Char) : Bool :=
  (c.isAlphanum && d.isAlphanum) || (c.isWhitespace && d.isWhitespace)

/-- Modelled from the spec: character-level word-boundary segmentation
for whitespace-delimited languages (maximal runs of alphanumeric
characters, maximal whitespace runs, lone punctuation). -/
def segmentEnglishChars : List Char → List (List Char)
  | [] => []
  | c :: cs =>
    match segmentEnglishChars cs with
    | [] => [[c]]
    | [] :: ts => [c] :: [] :: ts
    | (d :: ds) :: ts =>
      if joinable c d then (c :: d :: ds) :: ts else [c] :: (d :: ds) :: ts

/-- Embedding of `get_words_english` from `src/lang.rs`, with the
library call `split_word_bounds` modelled from the spec by
`segmentEnglishChars`. -/
def get_words_english (text : String) : List String :=
  (segmentEnglishChars text.data).map String.mk

/-- Modelled from the spec: the longest nonempty dictionary entry that
is a prefix of the given character stream, `none` when no entry
matches. -/
def bestMatch (cs : List Char) : List (List Char) → Option (List Char)
  | [] => none
  | e :: dict =>
    match bestMatch cs dict with
    | none => if e.isPrefixOf cs && !e.isEmpty then some e else none
    | some b => if e.isPrefixOf cs && b.length < e.length then some e else some b

theorem bestMatch_sound (cs : List Char) :
    ∀ dict e, bestMatch cs dict = some e → e ≠ [] ∧ e <+: cs := by
  intro dict
  induction dict with
  | nil => intro e h; exact absurd h (by simp [bestMatch])
  | cons d dict ih =>
    intro e h
    rw [bestMatch] at h
    split at h
    · split at h
      · rename_i hc
        cases h
        simp only [Bool.and_eq_true, Bool.not_eq_true'] at hc
        refine ⟨fun hnil => by simp [hnil] at hc, List.isPrefixOf_iff_prefix.mp hc.1⟩
      · cases h
    · rename_i b hrec
      split at h
      · rename_i hc
        cases h
        simp only [Bool.and_eq_true, decide_eq_true_eq] at hc
        refine ⟨fun hnil => ?_, List.isPrefixOf_iff_prefix.mp hc.1⟩
        rw [hnil] at hc
        exact absurd hc.2 (by simp)
      · cases h
        exact ih _ hrec

/-- Modelled from the spec: dictionary-based word breaking for languages
without whitespace delimiters (the `jieba_rs` `cut` call in
`get_words_chinese` is external library code). At each position the
longest matching dictionary word is emitted; a character with no match
is emitted on its own. -/
def cutChars (dict : List (List Char)) (cs : List Char) : List (List Char) :=
  match cs with
  | [] => []
  | c :: cs₀ =>
    match h : bestMatch (c :: cs₀) dict with
    | none => [c] :: cutChars dict cs₀
    | some e => e :: cutChars dict ((c :: cs₀).drop e.length)
termination_by cs.length
decreasing_by
  all_goals simp_wf
  exact List.length_pos.mpr (bestMatch_sound (c :: cs) dict e h).1

/-- Modelled from the spec: the process-lifetime dictionary of the
word-breaking model (the `jieba_rs` default dictionary is external
data); a small concrete stand-in with the same role. -/
def JIEBA_dict : List (List Char) :=
  ["你好".data, "世界".data, "中文".data, "阅读".data]

/-- Embedding of `get_words_chinese` from `src/lang.rs`, with the
library call `JIEBA.cut(text, false)` modelled from the spec by
`cutChars` over the cached dictionary. -/
def get_words_chinese (text : String) : List String :=
  (cutChars JIEBA_dict text.data).map String.mk

/-- Failure mode of `get_words` on an unrecognized language code (the
Rust source panics; the spec names this failure `UnsupportedLanguage`).
-/
inductive LangError where
  | unsupportedLanguage : LangError
deriving DecidableEq

/-- Embedding of `get_words` from `src/lang.rs`: dispatch on the
language code, with the panic on an unrecognized code modelled as an
`UnsupportedLanguage` error. -/
def get_words (text : String) (lang : String) : Except LangError (List String) :=
  if lang = "en" then Except.ok (get_words_english text)
  else if lang = "zh" then Except.ok (get_words_chinese text)
  else Except.error LangError.unsupportedLanguage

/-- Concatenation, in order, of a token sequence. -/
def concatTokens (ts : List String) : String := ts.foldr (· ++ ·) ""


theorem segmentEnglishChars_flatten (cs : List Char) :
    (segmentEnglishChars cs).flatten = cs := by
  induction cs with
  | nil => rfl
  | cons c cs ih =>
    rw [segmentEnglishChars]
    cases hr : segmentEnglishChars cs with
    | nil => rw [hr] at ih; simpa using ih.symm
    | cons t ts =>
      rw [hr] at ih
      cases t with
      | nil => simpa [List.flatten] using ih
      | cons d ds =>
        by_cases hj : joinable c d
        · simp only [hj, if_true, List.flatten, List.cons_append]
          simpa [List.flatten] using ih
        · simp only [hj, if_false, List.flatten, List.singleton_append]
          simpa [List.flatten] using ih

theorem cutChars_flatten_aux (dict : List (List Char)) :
    ∀ (n : Nat) (cs : List Char), cs.length ≤ n → (cutChars dict cs).flatten = cs := by
  intro n
  induction n with
  | zero =>
    intro cs hlen
    have : cs = [] := List.length_eq_zero.mp (Nat.le_zero.mp hlen)
    subst this
    rw [cutChars]
    rfl
  | succ n ih =>
    intro cs hlen
    match cs with
    | [] => rw [cutChars]; rfl
    | c :: cs₀ =>
      rw [cutChars]
      cases hb : bestMatch (c :: cs₀) dict with
      | none =>
        simp only [List.flatten, List.singleton_append]
        rw [ih cs₀ (by simp only [List.length_cons] at hlen; omega)]
      | some e =>
        obtain ⟨hne, hpre⟩ := bestMatch_sound (c :: cs₀) dict e hb
        simp only [List.flatten]
        rw [ih ((c :: cs₀).drop e.length) ?_]
        · obtain ⟨t, ht⟩ := hpre
          rw [← ht, List.drop_left]
        · rw [List.length_drop]
          have hp : 0 < e.length := List.length_pos.mpr hne
          simp only [List.length_cons] at hlen ⊢
          omega

theorem cutChars_flatten (dict : List (List Char)) (cs : List Char) :
    (cutChars dict cs).flatten = cs :=
  cutChars_flatten_aux dict cs.length cs Nat.le.refl

theorem mapLookup_mapInsert (k : String) (v : Json) :
    ∀ (m : List (String × Json)) (k₀ : String),
      mapLookup k₀ (mapInsert k v m) = if k₀ = k then some v else mapLookup k₀ m := by
  intro m
  induction m with
  | nil =>
    intro k₀
    simp [mapInsert, mapLookup]
  | cons a rest ih =>
    intro k₀
    obtain ⟨k₁, v₁⟩ := a
    rw [mapInsert]
    by_cases h1 : strLt k k₁ = true
    · rw [if_pos h1, mapLookup]
    · rw [if_neg h1]
      by_cases h2 : k = k₁
      · rw [if_pos h2]
        subst h2
        simp only [mapLookup]
        by_cases h3 : k₀ = k
        · simp [h3]
        · simp [h3]
      · rw [if_neg h2]
        simp only [mapLookup]
        by_cases h3 : k₀ = k₁
        · have hne : k₀ ≠ k := fun he => h2 (he.symm.trans h3)
          have hne2 : k₁ ≠ k := fun he => h2 he.symm
          simp [h3, hne, hne2]
        · simp [h3, ih k₀]

theorem mem_mapInsert (k : String) (v : Json) :
    ∀ (m : List (String × Json)) (x : String × Json),
      x ∈ mapInsert k v m → x = (k, v) ∨ x ∈ m := by
  intro m
  induction m with
  | nil =>
    intro x hx
    simp [mapInsert] at hx
    exact Or.inl hx
  | cons a rest ih =>
    intro x hx
    obtain ⟨k₁, v₁⟩ := a
    rw [mapInsert] at hx
    split_ifs at hx with h1 h2
    · simp only [List.mem_cons] at hx ⊢
      tauto
    · simp only [List.mem_cons] at hx ⊢
      tauto
    · simp only [List.mem_cons] at hx ⊢
      rcases hx with h | h
      · tauto
      · rcases ih x h with h | h <;> tauto

theorem pairwise_mapInsert (k : String) (v : Json) :
    ∀ m : List (String × Json),
      m.Pairwise (fun a b => strLt a.1 b.1 = true) →
      (mapInsert k v m).Pairwise (fun a b => strLt a.1 b.1 = true) := by
  intro m
  induction m with
  | nil =>
    intro _
    simp [mapInsert]
  | cons a rest ih =>
    intro hp
    obtain ⟨k₁, v₁⟩ := a
    rw [List.pairwise_cons] at hp
    obtain ⟨hall, hrest⟩ := hp
    rw [mapInsert]
    split_ifs with h1 h2
    · refine List.Pairwise.cons ?_ (List.Pairwise.cons hall hrest)
      intro x hx
      rcases List.mem_cons.mp hx with rfl | hx
      · exact h1
      · exact strLt_trans h1 (hall x hx)
    · subst h2
      exact List.Pairwise.cons hall hrest
    · have h1f : strLt k k₁ = false := by simpa using h1
      have hk : strLt k₁ k = true := strLt_of_ne h1f h2
      refine List.Pairwise.cons ?_ (ih hrest)
      intro x hx
      rcases mem_mapInsert k v rest x hx with rfl | hx
      · exact hk
      · exact hall x hx

theorem mapLookup_eq_none (k : String) :
    ∀ m : List (String × Json), (∀ x ∈ m, k ≠ x.1) → mapLookup k m = none := by
  intro m
  induction m with
  | nil => intro _; rfl
  | cons a rest ih =>
    intro h
    obtain ⟨k₁, v₁⟩ := a
    rw [mapLookup, if_neg (h (k₁, v₁) (List.mem_cons_self _ _))]
    exact ih (fun x hx => h x (List.mem_cons_of_mem _ hx))

theorem mem_of_mapLookup (k : String) (v : Json) :
    ∀ m : List (String × Json), mapLookup k m = some v → (k, v) ∈ m := by
  intro m
  induction m with
  | nil => intro h; cases h
  | cons a rest ih =>
    intro h
    obtain ⟨k₁, v₁⟩ := a
    rw [mapLookup] at h
    split_ifs at h with h1
    · cases h
      subst h1
      exact List.mem_cons_self _ _
    · exact List.mem_cons_of_mem _ (ih h)

theorem mapExt :
    ∀ m₁ m₂ : List (String × Json),
      m₁.Pairwise (fun a b => strLt a.1 b.1 = true) →
      m₂.Pairwise (fun a b => strLt a.1 b.1 = true) →
      (∀ k, mapLookup k m₁ = mapLookup k m₂) → m₁ = m₂ := by
  intro m₁
  induction m₁ with
  | nil =>
    intro m₂ _ _ h
    cases m₂ with
    | nil => rfl
    | cons b bs =>
      obtain ⟨k₂, v₂⟩ := b
      have h2 := h k₂
      simp [mapLookup] at h2
  | cons a as ih =>
    intro m₂ hp1 hp2 h
    obtain ⟨k₁, v₁⟩ := a
    cases m₂ with
    | nil =>
      have h1 := h k₁
      simp [mapLookup] at h1
    | cons b bs =>
      obtain ⟨k₂, v₂⟩ := b
      rw [List.pairwise_cons] at hp1 hp2
      obtain ⟨hall1, hrest1⟩ := hp1
      obtain ⟨hall2, hrest2⟩ := hp2
      have hm1 : (k₁, v₁) ∈ (k₂, v₂) :: bs := by
        apply mem_of_mapLookup
        rw [← h k₁, mapLookup, if_pos rfl]
      have hm2 : (k₂, v₂) ∈ (k₁, v₁) :: as := by
        apply mem_of_mapLookup
        rw [h k₂, mapLookup, if_pos rfl]
      have hk : k₁ = k₂ := by
        rcases List.mem_cons.mp hm1 with he | hm1
        · exact congrArg Prod.fst he
        · rcases List.mem_cons.mp hm2 with he | hm2
          · exact (congrArg Prod.fst he).symm
          · have hcon := strLt_trans (hall1 _ hm2) (hall2 _ hm1)
            rw [strLt_irrefl] at hcon
            cases hcon
      subst hk
      have hv : v₁ = v₂ := by
        rcases List.mem_cons.mp hm1 with he | hm1
        · exact congrArg Prod.snd he
        · have hcon := hall2 _ hm1
          rw [strLt_irrefl] at hcon
          cases hcon
      subst hv
      have htail : as = bs := by
        apply ih bs hrest1 hrest2
        intro k
        by_cases hkk : k = k₁
        · subst hkk
          rw [mapLookup_eq_none k as (fun x hx => ne_of_strLt (hall1 x hx)),
            mapLookup_eq_none k bs (fun x hx => ne_of_strLt (hall2 x hx))]
        · have hk2 := h k
          rw [mapLookup, if_neg hkk, mapLookup, if_neg hkk] at hk2
          exact hk2
      rw [htail]

theorem pairwise_foldl_mapInsert :
    ∀ (ws : List String) (m : List (String × Json)),
      m.Pairwise (fun a b => strLt a.1 b.1 = true) →
      (ws.foldl (fun m w => mapInsert (toLowercase w) (Json.bool true) m) m).Pairwise
        (fun a b => strLt a.1 b.1 = true) := by
  intro ws
  induction ws with
  | nil => intro m hm; exact hm
  | cons w ws ih =>
    intro m hm
    exact ih _ (pairwise_mapInsert _ _ _ hm)

theorem mapLookup_foldl_mapInsert :
    ∀ (ws : List String) (m : List (String × Json)) (k : String),
      mapLookup k (ws.foldl (fun m w => mapInsert (toLowercase w) (Json.bool true) m) m)
        = if ∃ w ∈ ws, toLowercase w = k then some (Json.bool true) else mapLookup k m := by
  intro ws
  induction ws with
  | nil =>
    intro m k
    simp
  | cons w ws ih =>
    intro m k
    rw [List.foldl_cons, ih, mapLookup_mapInsert]
    by_cases h1 : ∃ x ∈ ws, toLowercase x = k
    · rw [if_pos h1, if_pos (by rcases h1 with ⟨x, hx, he⟩; exact ⟨x, List.mem_cons_of_mem _ hx, he⟩)]
    · by_cases h2 : k = toLowercase w
      · rw [if_neg h1, if_pos h2, if_pos ⟨w, List.mem_cons_self _ _, h2.symm⟩]
      · rw [if_neg h1, if_neg h2, if_neg ?_]
        intro hc
        rcases hc with ⟨x, hx, he⟩
        rcases List.mem_cons.mp hx with rfl | hx
        · exact h2 he.symm
        · exact h1 ⟨x, hx, he⟩

theorem pairwise_uniqueWordsMap (ws : List String) :
    (uniqueWordsMap ws).Pairwise (fun a b => strLt a.1 b.1 = true) :=
  pairwise_foldl_mapInsert ws [] (List.Pairwise.nil)

theorem mapLookup_uniqueWordsMap (ws : List String) (k : String) :
    mapLookup k (uniqueWordsMap ws)
      = if ∃ w ∈ ws, toLowercase w = k then some (Json.bool true) else none :=
  mapLookup_foldl_mapInsert ws [] k

/-- Key lookup inside a JSON value: object lookup on objects, `none` on
every other variant (the shape consumers of `get_unique_words` rely
on). -/
def jsonLookup (j : Json) (k : String) : Option Json :=
  match j with
  | Json.obj fields => mapLookup k fields
  | _ => none

/-- Embedding of the `User` row type from `src/models.rs` (`i32`
modelled as `Int`, `SystemTime` as `Nat`). -/
structure User where
  id : Int
  username : String
  pass : String
  created_on : Nat
  study_lang : String
  display_lang : String
  refresh_token : String

/-- Embedding of `UpdateUserOpt` from `src/models.rs`. -/
structure UpdateUserOpt where
  username : Option String
  pass : Option String
  study_lang : Option String
  display_lang : Option String
  refresh_token : Option String

/-- Embedding of the `UpdateUserRequest` request shape from
`src/models.rs`. -/
structure UpdateUserRequest where
  username : Option String
  password : Option String
  study_lang : Option String
  display_lang : Option String

/-- Embedding of `UpdateUserOpt::none` from `src/models.rs`. -/
def UpdateUserOpt.noneOpt : UpdateUserOpt :=
  { username := none, pass := none, study_lang := none,
    display_lang := none, refresh_token := none }

/-- Embedding of `UpdateUserOpt::from_req` from `src/models.rs`: the
four request fields carry over, `refresh_token` is always `None`. -/
def UpdateUserOpt.from_req (req : UpdateUserRequest) : UpdateUserOpt :=
  { username := req.username, pass := req.password,
    study_lang := req.study_lang, display_lang := req.display_lang,
    refresh_token := none }

/-- Embedding of `SimpleUser` from `src/models.rs`. -/
structure SimpleUser where
  id : Int
  username : String

/-- Embedding of `SimpleUser::new` from `src/models.rs`. -/
def SimpleUser.new (user : User) : SimpleUser :=
  { id := user.id, username := user.username }

/-- Embedding of `RegisterResponse` from `src/models.rs`. -/
structure RegisterResponse where
  user : SimpleUser

/-- Embedding of `RegisterResponse::new` from `src/models.rs`. -/
def RegisterResponse.new (user : User) : RegisterResponse :=
  { user := SimpleUser.new user }

/-- Embedding of `GetUsersResponse` from `src/models.rs` (`i64` count
modelled as `Int`). -/
structure GetUsersResponse where
  users : List SimpleUser
  count : Int

/-- Embedding of `GetUsersResponse::new` from `src/models.rs`. -/
def GetUsersResponse.new (users : List SimpleUser) : GetUsersResponse :=
  { users := users, count := users.length }

/-- Embedding of `ClaimsUser` from `src/models.rs`: the identity
snapshot embedded in access tokens. -/
structure ClaimsUser where
  id : Int
  username : String
  created_on : Nat
  study_lang : String
  display_lang : String

/-- Embedding of `ClaimsUser::from_user` from `src/models.rs`. -/
def ClaimsUser.from_user (user : User) : ClaimsUser :=
  { id := user.id, username := user.username, created_on := user.created_on,
    study_lang := user.study_lang, display_lang := user.display_lang }

/-- Embedding of the `Article` row type from `src/models.rs`. -/
structure Article where
  id : Int
  title : String
  author : Option String
  content : String
  content_length : Int
  words : List String
  sentences : Json
  unique_words : Json
  page_data : Json
  created_on : Nat
  is_system : Bool
  uploader_id : Int
  lang : String
  tags : List String

/-- Embedding of `SimpleArticle` from `src/models.rs`: the list-view
row with no content, words, sentences, unique words, pages or uploader
id. -/
structure SimpleArticle where
  id : Int
  title : String
  author : Option String
  content_length : Int
  created_on : Nat
  is_system : Bool
  lang : String
  tags : List String

/-- Modelled from the spec: the projection of a full `Article` onto
`SimpleArticle` (in the source the projection happens in the database
layer by selecting the `SimpleArticle` columns of the same `article`
row; `src/models.rs` only declares the two row types). Every retained
field is copied unchanged. -/
def SimpleArticle.fromArticle (a : Article) : SimpleArticle :=
  { id := a.id, title := a.title, author := a.author,
    content_length := a.content_length, created_on := a.created_on,
    is_system := a.is_system, lang := a.lang, tags := a.tags }

/-- Embedding of `GetArticlesResponse` from `src/models.rs`. -/
structure GetArticlesResponse where
  articles : List SimpleArticle
  count : Int

/-- Embedding of `GetArticlesResponse::new` from `src/models.rs`. -/
def GetArticlesResponse.new (articles : List SimpleArticle) : GetArticlesResponse :=
  { articles := articles, count := articles.length }

theorem concatTokens_map_mk (ls : List (List Char)) :
    concatTokens (ls.map String.mk) = String.mk ls.flatten := by
  induction ls with
  | nil => rfl
  | cons l ls ih =>
    simp only [List.map_cons, concatTokens, List.foldr_cons] at ih ⊢
    rw [ih]
    rfl

/-- C1: for every input text and supported language code ("en", "zh"),
`get_words` succeeds and concatenating, in order, all returned tokens
reconstructs the input text exactly (lossless, boundary-preserving
segmentation). -/
theorem get_words_lossless (text lang : String)
    (h : lang = "en" ∨ lang = "zh") :
    ∃ tokens, get_words text lang = Except.ok tokens ∧ concatTokens tokens = text := by
  rcases h with rfl | rfl
  · refine ⟨get_words_english text, rfl, ?_⟩
    rw [get_words_english, concatTokens_map_mk, segmentEnglishChars_flatten]
  · refine ⟨get_words_chinese text, rfl, ?_⟩
    rw [get_words_chinese, concatTokens_map_mk, cutChars_flatten]

theorem get_words_lossless_witness :
    ∃ tokens, get_words "Hello, world!" "en" = Except.ok tokens ∧
      concatTokens tokens = "Hello, world!" :=
  get_words_lossless "Hello, world!" "en" (Or.inl rfl)

/-- C2: for every input text and language code other than "en" and
"zh", `get_words` fails with `UnsupportedLanguage`; no default
segmentation strategy is attempted. -/
theorem get_words_unsupported (text lang : String)
    (h1 : lang ≠ "en") (h2 : lang ≠ "zh") :
    get_words text lang = Except.error LangError.unsupportedLanguage := by
  rw [get_words, if_neg h1, if_neg h2]

theorem get_words_unsupported_witness :
    get_words "some text" "fr" = Except.error LangError.unsupportedLanguage :=
  get_words_unsupported "some text" "fr" (by decide) (by decide)

/-- C3 counterexample: on the token sequence of the spec's own example,
the pure-punctuation token "," is not excluded — its key is present in
the unique-word object, refuting both halves of the claim. -/
theorem get_unique_words_punct_key_present :
    jsonLookup (get_unique_words ["Hello", ",", " ", "world", "!"]) "," = some (Json.bool true) :=
  rfl

theorem jsonLookup_isSome_uniqueWords (ws : List String) (k : String) :
    (jsonLookup (get_unique_words ws) k).isSome ↔ ∃ w ∈ ws, toLowercase w = k := by
  show (mapLookup k (uniqueWordsMap ws)).isSome ↔ _
  rw [mapLookup_uniqueWordsMap]
  split_ifs with hc
  · simpa using hc
  · simpa using hc

/-- C3 amended: `get_unique_words` excludes no token — a key is present
in the resulting object exactly when it is the case-folded form of some
token, punctuation and whitespace tokens included. -/
theorem get_unique_words_key_iff (ws : List String) (k : String) :
    (jsonLookup (get_unique_words ws) k).isSome ↔ ∃ w ∈ ws, toLowercase w = k :=
  jsonLookup_isSome_uniqueWords ws k

/-- C4: the unique-word object is exactly the case-folded deduplication
of the tokens — it depends only on the member set of the token
sequence (order and multiplicity are irrelevant, repetition of the
whole sequence changes nothing), a key is present iff some token
lowercases to it, and every present key maps to `true`. -/
theorem get_unique_words_set_semantics (ws ws' : List String)
    (h : ∀ w, w ∈ ws ↔ w ∈ ws') :
    get_unique_words ws = get_unique_words ws' ∧
    get_unique_words (ws ++ ws) = get_unique_words ws ∧
    (∀ k, (jsonLookup (get_unique_words ws) k).isSome ↔ ∃ w ∈ ws, toLowercase w = k) ∧
    (∀ k v, jsonLookup (get_unique_words ws) k = some v → v = Json.bool true) := by
  have hext : ∀ l₁ l₂ : List String, (∀ w, w ∈ l₁ ↔ w ∈ l₂) →
      get_unique_words l₁ = get_unique_words l₂ := by
    intro l₁ l₂ hm
    apply congrArg Json.obj
    apply mapExt _ _ (pairwise_uniqueWordsMap l₁) (pairwise_uniqueWordsMap l₂)
    intro k
    rw [mapLookup_uniqueWordsMap, mapLookup_uniqueWordsMap]
    by_cases hc : ∃ w ∈ l₁, toLowercase w = k
    · obtain ⟨w, hw, he⟩ := hc
      rw [if_pos ⟨w, hw, he⟩, if_pos ⟨w, (hm w).mp hw, he⟩]
    · have hright : ¬∃ w ∈ l₂, toLowercase w = k := by
        intro hcon
        obtain ⟨w, hw, he⟩ := hcon
        exact hc ⟨w, (hm w).mpr hw, he⟩
      rw [if_neg hc, if_neg hright]
  refine ⟨hext ws ws' h, hext (ws ++ ws) ws (by intro w; simp [List.mem_append]), ?_, ?_⟩
  · intro k
    exact jsonLookup_isSome_uniqueWords ws k
  · intro k v hv
    have : jsonLookup (get_unique_words ws) k = mapLookup k (uniqueWordsMap ws) := rfl
    rw [this, mapLookup_uniqueWordsMap] at hv
    split_ifs at hv with hc
    exact (Option.some_inj.mp hv).symm

theorem get_unique_words_set_semantics_witness :
    get_unique_words ["Hello", "world", "Hello"] = get_unique_words ["world", "Hello"] ∧
    get_unique_words (["Hello", "world", "Hello"] ++ ["Hello", "world", "Hello"])
      = get_unique_words ["Hello", "world", "Hello"] ∧
    (∀ k, (jsonLookup (get_unique_words ["Hello", "world", "Hello"]) k).isSome ↔
      ∃ w ∈ ["Hello", "world", "Hello"], toLowercase w = k) ∧
    (∀ k v, jsonLookup (get_unique_words ["Hello", "world", "Hello"]) k = some v →
      v = Json.bool true) :=
  get_unique_words_set_semantics ["Hello", "world", "Hello"] ["world", "Hello"]
    (by intro w; simp [List.mem_cons]; tauto)

/-- C5 counterexample: on input "Hello, world!" with language "en" the
unique-word object is not the two-key set containing only "hello" and
"world" — the whitespace token's key " " is present as well. -/
theorem hello_world_unique_words_counterexample :
    jsonLookup (get_unique_words ["Hello", ",", " ", "world", "!"]) " " = some (Json.bool true) ∧
    get_unique_words ["Hello", ",", " ", "world", "!"]
      ≠ Json.obj (mapInsert "world" (Json.bool true) (mapInsert "hello" (Json.bool true) [])) := by
  refine ⟨rfl, ?_⟩
  intro heq
  have h1 : jsonLookup (get_unique_words ["Hello", ",", " ", "world", "!"]) " "
      = some (Json.bool true) := rfl
  rw [heq] at h1
  exact Option.noConfusion h1

/-- C5 amended: segmenting "Hello, world!" (English) yields exactly the
tokens ["Hello", ",", " ", "world", "!"], and the unique-word object of
that sequence has exactly the keys " ", "!", ",", "hello" and "world",
each mapped to `true` (the punctuation and whitespace tokens are
retained, case-folded, alongside "hello" and "world"). -/
theorem hello_world_example :
    get_words "Hello, world!" "en" = Except.ok ["Hello", ",", " ", "world", "!"] ∧
    uniqueWordsMap ["Hello", ",", " ", "world", "!"]
      = [(" ", Json.bool true), ("!", Json.bool true), (",", Json.bool true),
         ("hello", Json.bool true), ("world", Json.bool true)] := by
  exact ⟨rfl, rfl⟩

/-- C6: `ClaimsUser.from_user` copies exactly the five identity fields
(id, username, created_on, study_lang, display_lang) out of a `User`;
the snapshot does not depend on the password credential or refresh
token (users agreeing on the five fields yield equal snapshots), and
every snapshot value arises from some user (it carries no field beyond
the five). -/
theorem ClaimsUser_from_user_spec (u : User) :
    (ClaimsUser.from_user u).id = u.id ∧
    (ClaimsUser.from_user u).username = u.username ∧
    (ClaimsUser.from_user u).created_on = u.created_on ∧
    (ClaimsUser.from_user u).study_lang = u.study_lang ∧
    (ClaimsUser.from_user u).display_lang = u.display_lang ∧
    (∀ u' : User, u'.id = u.id → u'.username = u.username →
      u'.created_on = u.created_on → u'.study_lang = u.study_lang →
      u'.display_lang = u.display_lang →
      ClaimsUser.from_user u' = ClaimsUser.from_user u) ∧
    (∀ c : ClaimsUser, ∃ v : User, ClaimsUser.from_user v = c) := by
  refine ⟨rfl, rfl, rfl, rfl, rfl, ?_, ?_⟩
  · intro u' h1 h2 h3 h4 h5
    simp [ClaimsUser.from_user, h1, h2, h3, h4, h5]
  · intro c
    exact ⟨⟨c.id, c.username, "", c.created_on, c.study_lang, c.display_lang, ""⟩, rfl⟩

theorem ClaimsUser_from_user_spec_witness :
    ClaimsUser.from_user
        { id := 1, username := "alice", pass := "hunter2", created_on := 5,
          study_lang := "zh", display_lang := "en", refresh_token := "tokenA" }
      = ClaimsUser.from_user
        { id := 1, username := "alice", pass := "other", created_on := 5,
          study_lang := "zh", display_lang := "en", refresh_token := "tokenB" } :=
  (ClaimsUser_from_user_spec
    { id := 1, username := "alice", pass := "other", created_on := 5,
      study_lang := "zh", display_lang := "en", refresh_token := "tokenB" }).2.2.2.2.2.1
    { id := 1, username := "alice", pass := "hunter2", created_on := 5,
      study_lang := "zh", display_lang := "en", refresh_token := "tokenA" }
    rfl rfl rfl rfl rfl

/-- C7: the `SimpleArticle` projection retains id, title, author,
content_length, created_on, is_system, lang and tags unchanged; it does
not depend on the omitted fields content, words, sentences,
unique_words, page_data and uploader_id (articles agreeing on the
retained fields project identically), and every `SimpleArticle` value
arises as the projection of some `Article` (no field beyond the
retained ones). -/
theorem SimpleArticle_projection_spec (a : Article) :
    (SimpleArticle.fromArticle a).id = a.id ∧
    (SimpleArticle.fromArticle a).title = a.title ∧
    (SimpleArticle.fromArticle a).author = a.author ∧
    (SimpleArticle.fromArticle a).content_length = a.content_length ∧
    (SimpleArticle.fromArticle a).created_on = a.created_on ∧
    (SimpleArticle.fromArticle a).is_system = a.is_system ∧
    (SimpleArticle.fromArticle a).lang = a.lang ∧
    (SimpleArticle.fromArticle a).tags = a.tags ∧
    (∀ a' : Article, a'.id = a.id → a'.title = a.title → a'.author = a.author →
      a'.content_length = a.content_length → a'.created_on = a.created_on →
      a'.is_system = a.is_system → a'.lang = a.lang → a'.tags = a.tags →
      SimpleArticle.fromArticle a' = SimpleArticle.fromArticle a) ∧
    (∀ s : SimpleArticle, ∃ b : Article, SimpleArticle.fromArticle b = s) := by
  refine ⟨rfl, rfl, rfl, rfl, rfl, rfl, rfl, rfl, ?_, ?_⟩
  · intro a' h1 h2 h3 h4 h5 h6 h7 h8
    simp [SimpleArticle.fromArticle, h1, h2, h3, h4, h5, h6, h7, h8]
  · intro s
    exact ⟨⟨s.id, s.title, s.author, "", s.content_length, [], Json.null, Json.null,
      Json.null, s.created_on, s.is_system, 0, s.lang, s.tags⟩, rfl⟩

theorem SimpleArticle_projection_spec_witness :
    SimpleArticle.fromArticle
        { id := 3, title := "t", author := some "a", content := "full text",
          content_length := 9, words := ["full", " ", "text"], sentences := Json.arr [],
          unique_words := Json.obj [], page_data := Json.arr [], created_on := 11,
          is_system := false, uploader_id := 42, lang := "en", tags := ["x"] }
      = SimpleArticle.fromArticle
        { id := 3, title := "t", author := some "a", content := "",
          content_length := 9, words := [], sentences := Json.null,
          unique_words := Json.null, page_data := Json.null, created_on := 11,
          is_system := false, uploader_id := 7, lang := "en", tags := ["x"] } :=
  (SimpleArticle_projection_spec
    { id := 3, title := "t", author := some "a", content := "",
      content_length := 9, words := [], sentences := Json.null,
      unique_words := Json.null, page_data := Json.null, created_on := 11,
      is_system := false, uploader_id := 7, lang := "en", tags := ["x"] }).2.2.2.2.2.2.2.2.1
    { id := 3, title := "t", author := some "a", content := "full text",
      content_length := 9, words := ["full", " ", "text"], sentences := Json.arr [],
      unique_words := Json.obj [], page_data := Json.arr [], created_on := 11,
      is_system := false, uploader_id := 42, lang := "en", tags := ["x"] }
    rfl rfl rfl rfl rfl rfl rfl rfl

/-- C8: `UpdateUserOpt.from_req` always sets `refresh_token` to `None`
while carrying over the username, password, study_lang and display_lang
options of the request — a profile update through this path can never
modify the stored refresh token. -/
theorem UpdateUserOpt_from_req_spec (r : UpdateUserRequest) :
    (UpdateUserOpt.from_req r).refresh_token = none ∧
    (UpdateUserOpt.from_req r).username = r.username ∧
    (UpdateUserOpt.from_req r).pass = r.password ∧
    (UpdateUserOpt.from_req r).study_lang = r.study_lang ∧
    (UpdateUserOpt.from_req r).display_lang = r.display_lang :=
  ⟨rfl, rfl, rfl, rfl, rfl⟩

/-- C9: the `count` field built by `GetUsersResponse.new` and
`GetArticlesResponse.new` equals the length of the contained vector. -/
theorem response_count_eq_length (us : List SimpleUser) (arts : List SimpleArticle) :
    (GetUsersResponse.new us).count = (us.length : Int) ∧
    (GetArticlesResponse.new arts).count = (arts.length : Int) :=
  ⟨rfl, rfl⟩

/-- C10: `SimpleUser.new` and the responses built from it depend only
on id and username — two users differing only in their password and/or
refresh token produce identical `SimpleUser`, `RegisterResponse` and
`GetUsersResponse` values; neither credential is contained in or can
influence these responses. -/
theorem SimpleUser_new_no_secrets (u u' : User)
    (h1 : u.id = u'.id) (h2 : u.username = u'.username)
    (h3 : u.created_on = u'.created_on) (h4 : u.study_lang = u'.study_lang)
    (h5 : u.display_lang = u'.display_lang) :
    SimpleUser.new u = SimpleUser.new u' ∧
    RegisterResponse.new u = RegisterResponse.new u' ∧
    ∀ us us' : List User,
      List.Forall₂
        (fun a b => a.id = b.id ∧ a.username = b.username ∧ a.created_on = b.created_on ∧
          a.study_lang = b.study_lang ∧ a.display_lang = b.display_lang) us us' →
      GetUsersResponse.new (us.map SimpleUser.new)
        = GetUsersResponse.new (us'.map SimpleUser.new) := by
  have hsu : ∀ a b : User, a.id = b.id → a.username = b.username →
      SimpleUser.new a = SimpleUser.new b := by
    intro a b ha hb
    simp [SimpleUser.new, ha, hb]
  refine ⟨hsu u u' h1 h2, ?_, ?_⟩
  · simp [RegisterResponse.new, hsu u u' h1 h2]
  · intro us us' hf
    have hmap : us.map SimpleUser.new = us'.map SimpleUser.new := by
      induction hf with
      | nil => rfl
      | cons hab _ ih => simp [List.map_cons, ih, hsu _ _ hab.1 hab.2.1]
    rw [hmap]

theorem SimpleUser_new_no_secrets_witness :
    SimpleUser.new
        { id := 7, username := "bob", pass := "pwA", created_on := 3,
          study_lang := "en", display_lang := "en", refresh_token := "tokA" }
      = SimpleUser.new
        { id := 7, username := "bob", pass := "pwB", created_on := 3,
          study_lang := "en", display_lang := "en", refresh_token := "tokB" } ∧
    RegisterResponse.new
        { id := 7, username := "bob", pass := "pwA", created_on := 3,
          study_lang := "en", display_lang := "en", refresh_token := "tokA" }
      = RegisterResponse.new
        { id := 7, username := "bob", pass := "pwB", created_on := 3,
          study_lang := "en", display_lang := "en", refresh_token := "tokB" } ∧
    ∀ us us' : List User,
      List.Forall₂
        (fun a b => a.id = b.id ∧ a.username = b.username ∧ a.created_on = b.created_on ∧
          a.study_lang = b.study_lang ∧ a.display_lang = b.display_lang) us us' →
      GetUsersResponse.new (us.map SimpleUser.new)
        = GetUsersResponse.new (us'.map SimpleUser.new) :=
  SimpleUser_new_no_secrets
    { id := 7, username := "bob", pass := "pwA", created_on := 3,
      study_lang := "en", display_lang := "en", refresh_token := "tokA" }
    { id := 7, username := "bob", pass := "pwB", created_on := 3,
      study_lang := "en", display_lang := "en", refresh_token := "tokB" }
    rfl rfl rfl rfl rfl
